import Mathlib

/-!
Verification of the mt940 micro-benchmark script
(`scripts/bench-mt940-WolpH.py`).

The script loads the `timeit` and `mt940` modules, and its whole body is
one statement: with a setup phase that binds
`input_str = Path("tests/data/mt940/full/danskebank/MT940_DK_Example.sta").read_text()`,
it runs `print(timeit.timeit("mt940.parse(input_str)", setup, number=10))`.

`timeit.timeit(stmt, setup, number)` runs `setup` once, starts a monotonic
timer, executes `stmt` exactly `number` times, stops the timer and returns the
total elapsed seconds as a float; any exception raised by `setup` or by `stmt`
propagates uncaught, terminating the process with a traceback and exit code 1.

We embed the run as a function of an environment that supplies the external
collaborators: the filesystem (`fs`, returning `none` when the path is missing
or unreadable), the target operation (`parse`, indexed by call number so that a
stateful collaborator can fail on a later call, returning `none` when it
raises), and the monotonic timer, modelled as a per-call cost `parseCost` plus
a file-read cost `readCost` that by construction of `timeit` lies outside the
timed window. The run produces a trace of observable effects and an outcome.
-/

namespace MT940Bench

/-- Number of timed invocations of the target operation: the literal
`number=10` passed to `timeit.timeit`. -/
def iterations : Nat := 10

/-- The literal relative path of the fixture file read in the setup phase. -/
def fixturePath : String := "tests/data/mt940/full/danskebank/MT940_DK_Example.sta"

/-- Observable side effects of a run: a filesystem read, an invocation of the
target operation, or a line printed to standard output carrying one
floating-point value (elapsed seconds, modelled as a rational). -/
inductive Event where
  | fsRead (path : String)
  | parseCall (input : String)
  | stdoutPrintFloat (value : ℚ)
deriving DecidableEq

/-- How the process ends: normal exit, or an uncaught exception from the file
read in setup, or an uncaught exception from the target operation. -/
inductive RunOutcome where
  | success
  | fileAccessError
  | parseError
deriving DecidableEq

/-- Process exit status: 0 on success, 1 (the Python interpreter's exit code
for an uncaught exception) otherwise. -/
def exitCode : RunOutcome → Nat
  | RunOutcome.success => 0
  | RunOutcome.fileAccessError => 1
  | RunOutcome.parseError => 1

/-- The external collaborators of the script. `fs` maps a path to the file's
text (`none`: missing or unreadable). `parse i s` is the result of the `i`-th
invocation of `mt940.parse` on `s` (`none`: it raises); the result value is
opaque to the runner. `readCost` and `parseCost i` are the wall-clock seconds
consumed by the file read and by the `i`-th parse call. -/
structure Env where
  fs : String → Option String
  parse : Nat → String → Option String
  readCost : ℚ
  parseCost : Nat → ℚ

/-- Detects a parse-call event. -/
def Event.isParseCall : Event → Bool
  | Event.parseCall _ => true
  | _ => false

/-- Detects a filesystem-read event. -/
def Event.isFsRead : Event → Bool
  | Event.fsRead _ => true
  | _ => false

/-- Detects a standard-output event. -/
def Event.isStdout : Event → Bool
  | Event.stdoutPrintFloat _ => true
  | _ => false

/-- The timed loop of `timeit`: execute the statement `n` more times, the next
call having index `i`. Returns the parse-call events that occurred and whether
the loop ran to completion (`false`: a call raised and the loop aborted). -/
def timedLoop (parse : Nat → String → Option String) (text : String)
    (i : Nat) : Nat → List Event × Bool
  | 0 => ([], true)
  | Nat.succ n =>
    match parse i text with
    | none => ([Event.parseCall text], false)
    | some _ =>
      let r := timedLoop parse text (i + 1) n
      (Event.parseCall text :: r.1, r.2)

/-- Total elapsed seconds reported by `timeit`: the sum of the costs of the
`n` timed calls (the setup file read is outside the timed window). -/
def elapsed (parseCost : Nat → ℚ) (n : Nat) : ℚ :=
  ((List.range n).map parseCost).sum

/-- One run of the script with the iteration count generalised to `n`:
read the fixture (abort on failure), run the timed loop, and on completion
print the total elapsed seconds. -/
def runBenchN (env : Env) (n : Nat) : List Event × RunOutcome :=
  match env.fs fixturePath with
  | none => ([Event.fsRead fixturePath], RunOutcome.fileAccessError)
  | some text =>
    let r := timedLoop env.parse text 0 n
    if r.2 then
      (Event.fsRead fixturePath ::
        (r.1 ++ [Event.stdoutPrintFloat (elapsed env.parseCost n)]),
       RunOutcome.success)
    else
      (Event.fsRead fixturePath :: r.1, RunOutcome.parseError)

/-- The script as written: `number = iterations = 10`. -/
def runBench (env : Env) : List Event × RunOutcome :=
  runBenchN env iterations

/-- The script as invoked by the operating system: it receives command-line
arguments and environment variables but its body never consults them. -/
def runBenchFull (_cmdArgs : List String) (_osEnv : String → Option String)
    (env : Env) : List Event × RunOutcome :=
  runBench env

/-! Helper lemmas about the timed loop and the run. -/

theorem filter_replicate_pos {α : Type} (n : Nat) (a : α) (p : α → Bool)
    (h : p a = true) : (List.replicate n a).filter p = List.replicate n a := by
  induction n with
  | zero => rfl
  | succ m ih => simp [List.replicate_succ, List.filter_cons, h, ih]

theorem filter_replicate_neg {α : Type} (n : Nat) (a : α) (p : α → Bool)
    (h : p a = false) : (List.replicate n a).filter p = [] := by
  induction n with
  | zero => rfl
  | succ m ih => simp [List.replicate_succ, List.filter_cons, h, ih]

theorem timedLoop_ok (parse : Nat → String → Option String) (text : String) :
    ∀ (n i : Nat), (∀ j, j < n → (parse (i + j) text).isSome) →
      timedLoop parse text i n = (List.replicate n (Event.parseCall text), true) := by
  intro n
  induction n with
  | zero => intro i _; rfl
  | succ m ih =>
    intro i h
    have h0 : (parse i text).isSome := by simpa using h 0 (Nat.succ_pos m)
    obtain ⟨v, hv⟩ := Option.isSome_iff_exists.mp h0
    have hrest : ∀ j, j < m → (parse (i + 1 + j) text).isSome := by
      intro j hj
      have heq : i + 1 + j = i + (j + 1) := by omega
      rw [heq]
      exact h (j + 1) (by omega)
    have hih := ih (i + 1) hrest
    simp [timedLoop, hv, hih, List.replicate_succ]

theorem timedLoop_fail (parse : Nat → String → Option String) (text : String) :
    ∀ (k n i : Nat), (∀ j, j < k → (parse (i + j) text).isSome) →
      parse (i + k) text = none → k < n →
      timedLoop parse text i n =
        (List.replicate (k + 1) (Event.parseCall text), false) := by
  intro k
  induction k with
  | zero =>
    intro n i _ hfail hn
    match n, hn with
    | Nat.succ m, _ =>
      simp only [Nat.add_zero] at hfail
      simp [timedLoop, hfail, List.replicate_succ]
  | succ l ih =>
    intro n i h hfail hn
    match n, hn with
    | Nat.succ m, hn =>
      have h0 : (parse i text).isSome := by simpa using h 0 (Nat.succ_pos l)
      obtain ⟨v, hv⟩ := Option.isSome_iff_exists.mp h0
      have hrest : ∀ j, j < l → (parse (i + 1 + j) text).isSome := by
        intro j hj
        have heq : i + 1 + j = i + (j + 1) := by omega
        rw [heq]
        exact h (j + 1) (by omega)
      have hfail2 : parse (i + 1 + l) text = none := by
        have heq : i + 1 + l = i + (l + 1) := by omega
        rw [heq]
        exact hfail
      have hih := ih m (i + 1) hrest hfail2 (by omega)
      simp [timedLoop, hv, hih, List.replicate_succ]

theorem timedLoop_mem (parse : Nat → String → Option String) (text : String) :
    ∀ (n i : Nat), ∀ e ∈ (timedLoop parse text i n).1, e = Event.parseCall text := by
  intro n
  induction n with
  | zero => intro i e he; simp [timedLoop] at he
  | succ m ih =>
    intro i e he
    cases hp : parse i text with
    | none =>
      simp [timedLoop, hp] at he
      exact he
    | some v =>
      simp [timedLoop, hp] at he
      rcases he with he | he
      · exact he
      · exact ih (i + 1) e he

theorem timedLoop_length_le (parse : Nat → String → Option String) (text : String) :
    ∀ (n i : Nat), (timedLoop parse text i n).1.length ≤ n := by
  intro n
  induction n with
  | zero => intro i; simp [timedLoop]
  | succ m ih =>
    intro i
    cases hp : parse i text with
    | none => simp [timedLoop, hp]
    | some v =>
      simp only [timedLoop, hp, List.length_cons]
      exact Nat.succ_le_succ (ih (i + 1))

theorem runBenchN_ok (env : Env) (text : String) (n : Nat)
    (hfs : env.fs fixturePath = some text)
    (hok : ∀ i, i < n → (env.parse i text).isSome) :
    runBenchN env n =
      (Event.fsRead fixturePath ::
        (List.replicate n (Event.parseCall text) ++
          [Event.stdoutPrintFloat (elapsed env.parseCost n)]),
       RunOutcome.success) := by
  have hloop := timedLoop_ok env.parse text n 0 (fun j hj => by simpa using hok j hj)
  simp [runBenchN, hfs, hloop]

theorem runBenchN_fail (env : Env) (text : String) (n k : Nat)
    (hfs : env.fs fixturePath = some text)
    (hbefore : ∀ j, j < k → (env.parse j text).isSome)
    (hfail : env.parse k text = none) (hk : k < n) :
    runBenchN env n =
      (Event.fsRead fixturePath :: List.replicate (k + 1) (Event.parseCall text),
       RunOutcome.parseError) := by
  have hloop := timedLoop_fail env.parse text k n 0
    (fun j hj => by simpa using hbefore j hj) (by simpa using hfail) hk
  simp [runBenchN, hfs, hloop]

theorem filter_parseCall_cons_fsRead (p : String) (l : List Event) :
    ((Event.fsRead p :: l).filter Event.isParseCall) =
      l.filter Event.isParseCall := rfl

theorem filter_parseCall_append_stdout (l : List Event) (x : ℚ) :
    ((l ++ [Event.stdoutPrintFloat x]).filter Event.isParseCall) =
      l.filter Event.isParseCall := by
  simp [List.filter_append, Event.isParseCall]

theorem elapsed_eq_sum (f : Nat → ℚ) : ∀ n, elapsed f n = ∑ i ∈ Finset.range n, f i := by
  intro n
  induction n with
  | zero => simp [elapsed]
  | succ m ih =>
    rw [elapsed, List.range_succ, List.map_append, List.sum_append,
      Finset.sum_range_succ, ← elapsed, ih]
    simp

theorem elapsed_nonneg (f : Nat → ℚ) (n : Nat) (h : ∀ i, 0 ≤ f i) :
    0 ≤ elapsed f n := by
  rw [elapsed_eq_sum]
  exact Finset.sum_nonneg fun i _ => h i

theorem elapsed_pos (f : Nat → ℚ) (n : Nat) (hn : 0 < n) (h : ∀ i, 0 < f i) :
    0 < elapsed f n := by
  rw [elapsed_eq_sum]
  exact Finset.sum_pos (fun i _ => h i)
    (Finset.nonempty_range_iff.mpr (Nat.pos_iff_ne_zero.mp hn))

/-! Concrete environments used to instantiate the theorems. -/

/-- A sample fixture text standing for the danskebank MT940 statement. -/
def sampleText : String := ":20:3996-1234567890"

/-- An environment where the fixture exists with the sample text, every parse
call succeeds, and the file read and every timed call cost one second. -/
def sampleEnv : Env :=
  ⟨fun _ => some sampleText, fun _ s => some s, 1, fun _ => 1⟩

/-- An environment whose filesystem has no readable file at any path. -/
def missingEnv : Env :=
  ⟨fun _ => none, fun _ s => some s, 1, fun _ => 1⟩

/-- An environment whose target operation raises on its third invocation
(call index 2) and succeeds before that. -/
def failingEnv : Env :=
  ⟨fun _ => some sampleText, fun i s => if i = 2 then none else some s, 1,
    fun _ => 1⟩

/-! Claim theorems. -/

/-- C1: on a successful run the target operation is invoked exactly
`iterations` (= 10) times, every invocation receives the same in-memory
fixture text, and each call's return value is discarded: a second environment
whose parse calls may return different values (but also succeed) yields the
identical trace and outcome. -/
theorem parse_called_exactly_iterations_times (env env2 : Env) (text : String)
    (hfs : env.fs fixturePath = some text)
    (hok : ∀ i, i < iterations → (env.parse i text).isSome)
    (hfs2 : env2.fs fixturePath = some text)
    (hok2 : ∀ i, i < iterations → (env2.parse i text).isSome)
    (hcost : env2.parseCost = env.parseCost) :
    ((runBench env).1.filter Event.isParseCall) =
        List.replicate iterations (Event.parseCall text) ∧
    ((runBench env).1.filter Event.isParseCall).length = iterations ∧
    runBench env2 = runBench env := by
  have h1 := runBenchN_ok env text iterations hfs hok
  have h2 := runBenchN_ok env2 text iterations hfs2 hok2
  have hfilter : ((runBench env).1.filter Event.isParseCall) =
      List.replicate iterations (Event.parseCall text) := by
    rw [runBench, h1]
    simp [List.filter_cons, List.filter_append, Event.isParseCall,
      filter_replicate_pos]
  refine ⟨hfilter, by rw [hfilter, List.length_replicate], ?_⟩
  rw [runBench, runBench, h1, h2, hcost]

/-- C1 witness: the theorem instantiated at the sample environment. -/
theorem parse_called_exactly_iterations_times_witness :
    ((runBench sampleEnv).1.filter Event.isParseCall) =
        List.replicate iterations (Event.parseCall sampleText) ∧
    ((runBench sampleEnv).1.filter Event.isParseCall).length = iterations ∧
    runBench sampleEnv = runBench sampleEnv :=
  parse_called_exactly_iterations_times sampleEnv sampleEnv sampleText rfl
    (fun _ _ => rfl) rfl (fun _ _ => rfl) rfl

/-- C2: the fixture is read exactly once, as the first observable effect
(before any timed call), all parse calls receive exactly that text, and the
reported duration is independent of the cost of the file read: replacing
`readCost` by any value leaves the whole run unchanged. -/
theorem fixture_read_once_reused (env : Env) (text : String)
    (hfs : env.fs fixturePath = some text)
    (hok : ∀ i, i < iterations → (env.parse i text).isSome) :
    ((runBench env).1.filter Event.isFsRead) = [Event.fsRead fixturePath] ∧
    (runBench env).1.head? = some (Event.fsRead fixturePath) ∧
    (∀ s, Event.parseCall s ∈ (runBench env).1 → s = text) ∧
    (∀ c : ℚ, runBench ⟨env.fs, env.parse, c, env.parseCost⟩ = runBench env) := by
  have h1 := runBenchN_ok env text iterations hfs hok
  refine ⟨?_, ?_, ?_, ?_⟩
  · rw [runBench, h1]
    simp [List.filter_cons, List.filter_append, Event.isFsRead,
      filter_replicate_neg]
  · rw [runBench, h1]
    rfl
  · intro s hs
    rw [runBench, h1] at hs
    simp only [List.mem_cons, List.mem_append, List.mem_replicate,
      List.mem_singleton] at hs
    rcases hs with hs | ⟨_, hs⟩ | hs <;> simp_all
  · intro c
    have h2 := runBenchN_ok ⟨env.fs, env.parse, c, env.parseCost⟩ text
      iterations hfs hok
    rw [runBench, runBench, h1, h2]

/-- C2 witness: the theorem instantiated at the sample environment. -/
theorem fixture_read_once_reused_witness :
    ((runBench sampleEnv).1.filter Event.isFsRead) =
        [Event.fsRead fixturePath] ∧
    (runBench sampleEnv).1.head? = some (Event.fsRead fixturePath) ∧
    (∀ s, Event.parseCall s ∈ (runBench sampleEnv).1 → s = sampleText) ∧
    (∀ c : ℚ, runBench ⟨sampleEnv.fs, sampleEnv.parse, c, sampleEnv.parseCost⟩ =
        runBench sampleEnv) :=
  fixture_read_once_reused sampleEnv sampleText rfl (fun _ _ => rfl)

/-- C3: on a successful run exactly one line is written to standard output,
and the value it carries is the total elapsed seconds summed over all
`iterations` calls, not an average or any other statistic. -/
theorem prints_single_total_duration (env : Env) (text : String)
    (hfs : env.fs fixturePath = some text)
    (hok : ∀ i, i < iterations → (env.parse i text).isSome) :
    ((runBench env).1.filter Event.isStdout) =
        [Event.stdoutPrintFloat (elapsed env.parseCost iterations)] ∧
    elapsed env.parseCost iterations =
        ∑ i ∈ Finset.range iterations, env.parseCost i := by
  have h1 := runBenchN_ok env text iterations hfs hok
  constructor
  · rw [runBench, h1]
    simp [List.filter_cons, List.filter_append, Event.isStdout,
      filter_replicate_neg]
  · exact elapsed_eq_sum env.parseCost iterations

/-- C3 witness: the theorem instantiated at the sample environment, where the
ten one-second calls sum to ten seconds. -/
theorem prints_single_total_duration_witness :
    ((runBench sampleEnv).1.filter Event.isStdout) =
        [Event.stdoutPrintFloat (elapsed sampleEnv.parseCost iterations)] ∧
    elapsed sampleEnv.parseCost iterations =
        ∑ i ∈ Finset.range iterations, sampleEnv.parseCost i :=
  prints_single_total_duration sampleEnv sampleText rfl (fun _ _ => rfl)

/-- C4: if the fixture path is missing or unreadable, the run ends with a
file-access error and a non-zero exit status, the target operation is never
invoked, and nothing is printed to standard output. -/
theorem missing_fixture_zero_calls (env : Env)
    (hfs : env.fs fixturePath = none) :
    (runBench env).2 = RunOutcome.fileAccessError ∧
    exitCode (runBench env).2 ≠ 0 ∧
    ((runBench env).1.filter Event.isParseCall).length = 0 ∧
    ((runBench env).1.filter Event.isStdout) = [] := by
  have h : runBench env =
      ([Event.fsRead fixturePath], RunOutcome.fileAccessError) := by
    rw [runBench, runBenchN, hfs]
  rw [h]
  refine ⟨rfl, by simp [exitCode], ?_, ?_⟩ <;>
    simp [List.filter_cons, Event.isParseCall, Event.isStdout]

/-- C4 witness: the theorem instantiated at the environment with no files. -/
theorem missing_fixture_zero_calls_witness :
    (runBench missingEnv).2 = RunOutcome.fileAccessError ∧
    exitCode (runBench missingEnv).2 ≠ 0 ∧
    ((runBench missingEnv).1.filter Event.isParseCall).length = 0 ∧
    ((runBench missingEnv).1.filter Event.isStdout) = [] :=
  missing_fixture_zero_calls missingEnv rfl

/-- C5: if the target operation first raises on its call of index `k`
(the `k + 1`-st iteration), the run ends with a parse error and a non-zero
exit status, exactly `k + 1` calls are observed, and no duration line is
printed. -/
theorem parse_failure_aborts_no_output (env : Env) (text : String) (k : Nat)
    (hfs : env.fs fixturePath = some text)
    (hbefore : ∀ j, j < k → (env.parse j text).isSome)
    (hfail : env.parse k text = none)
    (hk : k < iterations) :
    (runBench env).2 = RunOutcome.parseError ∧
    exitCode (runBench env).2 ≠ 0 ∧
    ((runBench env).1.filter Event.isParseCall).length = k + 1 ∧
    ((runBench env).1.filter Event.isStdout) = [] := by
  have h := runBenchN_fail env text iterations k hfs hbefore hfail hk
  rw [runBench, h]
  refine ⟨rfl, by simp [exitCode], ?_, ?_⟩ <;>
    simp [List.filter_cons, Event.isParseCall, Event.isStdout,
      filter_replicate_pos, filter_replicate_neg]

/-- C5 witness: the theorem instantiated at the environment whose parser
raises on call index 2, showing exactly three observed calls. -/
theorem parse_failure_aborts_no_output_witness :
    (runBench failingEnv).2 = RunOutcome.parseError ∧
    exitCode (runBench failingEnv).2 ≠ 0 ∧
    ((runBench failingEnv).1.filter Event.isParseCall).length = 2 + 1 ∧
    ((runBench failingEnv).1.filter Event.isStdout) = [] :=
  parse_failure_aborts_no_output failingEnv sampleText 2 rfl
    (fun j hj => by
      have hne : j ≠ 2 := by omega
      simp [failingEnv, hne])
    rfl (by decide)

/-- C6: for every readable fixture accepted by the target operation and every
iteration count N ≥ 1, the run succeeds and prints a single non-negative
value, since a monotonic timer never yields a negative per-call cost. -/
theorem valid_fixture_prints_nonneg (env : Env) (text : String) (n : Nat)
    (_hn : 1 ≤ n)
    (hfs : env.fs fixturePath = some text)
    (hok : ∀ i, i < n → (env.parse i text).isSome)
    (hcost : ∀ i, 0 ≤ env.parseCost i) :
    (runBenchN env n).2 = RunOutcome.success ∧
    ∃ d : ℚ, ((runBenchN env n).1.filter Event.isStdout) =
        [Event.stdoutPrintFloat d] ∧ 0 ≤ d := by
  have h1 := runBenchN_ok env text n hfs hok
  rw [h1]
  refine ⟨rfl, elapsed env.parseCost n, ?_, elapsed_nonneg env.parseCost n hcost⟩
  simp [List.filter_cons, List.filter_append, Event.isStdout,
    filter_replicate_neg]

/-- C6 witness: the theorem instantiated at the sample environment with
N = 10. -/
theorem valid_fixture_prints_nonneg_witness :
    (runBenchN sampleEnv 10).2 = RunOutcome.success ∧
    ∃ d : ℚ, ((runBenchN sampleEnv 10).1.filter Event.isStdout) =
        [Event.stdoutPrintFloat d] ∧ 0 ≤ d :=
  valid_fixture_prints_nonneg sampleEnv sampleText 10 (by decide) rfl
    (fun _ _ => rfl) (fun _ => by norm_num [sampleEnv])

/-- C7: the only observable side effects of a successful run are exactly one
filesystem read (of the fixture path, and it is a read, not a write) and
exactly one write to standard output; every other event in the trace is an
invocation of the target operation. -/
theorem side_effects_one_read_one_write (env : Env) (text : String)
    (hfs : env.fs fixturePath = some text)
    (hok : ∀ i, i < iterations → (env.parse i text).isSome) :
    ((runBench env).1.filter Event.isFsRead) = [Event.fsRead fixturePath] ∧
    ((runBench env).1.filter Event.isStdout).length = 1 ∧
    (∀ e ∈ (runBench env).1,
      e.isFsRead = true ∨ e.isStdout = true ∨ e.isParseCall = true) := by
  have h1 := runBenchN_ok env text iterations hfs hok
  refine ⟨?_, ?_, ?_⟩
  · rw [runBench, h1]
    simp [List.filter_cons, List.filter_append, Event.isFsRead,
      filter_replicate_neg]
  · rw [runBench, h1]
    simp [List.filter_cons, List.filter_append, Event.isStdout,
      filter_replicate_neg]
  · intro e _
    cases e with
    | fsRead p => exact Or.inl rfl
    | parseCall s => exact Or.inr (Or.inr rfl)
    | stdoutPrintFloat x => exact Or.inr (Or.inl rfl)

/-- C7 witness: the theorem instantiated at the sample environment. -/
theorem side_effects_one_read_one_write_witness :
    ((runBench sampleEnv).1.filter Event.isFsRead) =
        [Event.fsRead fixturePath] ∧
    ((runBench sampleEnv).1.filter Event.isStdout).length = 1 ∧
    (∀ e ∈ (runBench sampleEnv).1,
      e.isFsRead = true ∨ e.isStdout = true ∨ e.isParseCall = true) :=
  side_effects_one_read_one_write sampleEnv sampleText rfl (fun _ _ => rfl)

/-- C8: two successive runs over the same fixture, each with a strictly
advancing monotonic timer, are independent and structurally identical: each
succeeds and prints exactly one value, and both printed values are positive
(rationals are always finite). -/
theorem two_runs_structurally_identical (e1 e2 : Env) (text : String)
    (hfs1 : e1.fs fixturePath = some text)
    (hok1 : ∀ i, i < iterations → (e1.parse i text).isSome)
    (hpos1 : ∀ i, 0 < e1.parseCost i)
    (hfs2 : e2.fs fixturePath = some text)
    (hok2 : ∀ i, i < iterations → (e2.parse i text).isSome)
    (hpos2 : ∀ i, 0 < e2.parseCost i) :
    (runBench e1).2 = RunOutcome.success ∧
    (runBench e2).2 = RunOutcome.success ∧
    (∃ d1 : ℚ, ((runBench e1).1.filter Event.isStdout) =
        [Event.stdoutPrintFloat d1] ∧ 0 < d1) ∧
    (∃ d2 : ℚ, ((runBench e2).1.filter Event.isStdout) =
        [Event.stdoutPrintFloat d2] ∧ 0 < d2) := by
  have h1 := runBenchN_ok e1 text iterations hfs1 hok1
  have h2 := runBenchN_ok e2 text iterations hfs2 hok2
  have hiter : 0 < iterations := by decide
  refine ⟨by rw [runBench, h1], by rw [runBench, h2],
    ⟨elapsed e1.parseCost iterations, ?_,
      elapsed_pos e1.parseCost iterations hiter hpos1⟩,
    ⟨elapsed e2.parseCost iterations, ?_,
      elapsed_pos e2.parseCost iterations hiter hpos2⟩⟩
  · rw [runBench, h1]
    simp [List.filter_cons, List.filter_append, Event.isStdout,
      filter_replicate_neg]
  · rw [runBench, h2]
    simp [List.filter_cons, List.filter_append, Event.isStdout,
      filter_replicate_neg]

/-- C8 witness: the theorem instantiated with the sample environment for both
runs. -/
theorem two_runs_structurally_identical_witness :
    (runBench sampleEnv).2 = RunOutcome.success ∧
    (runBench sampleEnv).2 = RunOutcome.success ∧
    (∃ d1 : ℚ, ((runBench sampleEnv).1.filter Event.isStdout) =
        [Event.stdoutPrintFloat d1] ∧ 0 < d1) ∧
    (∃ d2 : ℚ, ((runBench sampleEnv).1.filter Event.isStdout) =
        [Event.stdoutPrintFloat d2] ∧ 0 < d2) :=
  two_runs_structurally_identical sampleEnv sampleEnv sampleText rfl
    (fun _ _ => rfl) (fun _ => by norm_num [sampleEnv]) rfl
    (fun _ _ => rfl) (fun _ => by norm_num [sampleEnv])

/-- C9: the observable behaviour is independent of command-line arguments and
environment variables, because the script never consults them, and both the
iteration count and the fixture path are embedded literal constants. -/
theorem behaviour_independent_of_invocation (args1 args2 : List String)
    (os1 os2 : String → Option String) (env : Env) :
    runBenchFull args1 os1 env = runBenchFull args2 os2 env ∧
    iterations = 10 ∧
    fixturePath = "tests/data/mt940/full/danskebank/MT940_DK_Example.sta" :=
  ⟨rfl, rfl, rfl⟩

/-- C10: execution is one statically bounded linear pass: in every
environment the whole trace has at most `iterations` + 2 events (one read,
at most `iterations` calls, at most one print), and the target operation is
invoked at most `iterations` times. -/
theorem run_statically_bounded (env : Env) :
    (runBench env).1.length ≤ iterations + 2 ∧
    ((runBench env).1.filter Event.isParseCall).length ≤ iterations := by
  rw [runBench]
  cases hfs : env.fs fixturePath with
  | none =>
    have h : runBenchN env iterations =
        ([Event.fsRead fixturePath], RunOutcome.fileAccessError) := by
      rw [runBenchN, hfs]
    rw [h]
    refine ⟨by simp, ?_⟩
    simp [List.filter_cons, Event.isParseCall]
  | some text =>
    have hlen := timedLoop_length_le env.parse text iterations 0
    have hfil := List.length_filter_le Event.isParseCall
      (timedLoop env.parse text 0 iterations).1
    cases hb : (timedLoop env.parse text 0 iterations).2 with
    | false =>
      have h : runBenchN env iterations =
          (Event.fsRead fixturePath ::
            (timedLoop env.parse text 0 iterations).1,
           RunOutcome.parseError) := by
        simp [runBenchN, hfs, hb]
      rw [h]
      constructor
      · simp only [List.length_cons]
        omega
      · rw [filter_parseCall_cons_fsRead]
        omega
    | true =>
      have h : runBenchN env iterations =
          (Event.fsRead fixturePath ::
            ((timedLoop env.parse text 0 iterations).1 ++
              [Event.stdoutPrintFloat (elapsed env.parseCost iterations)]),
           RunOutcome.success) := by
        simp [runBenchN, hfs, hb]
      rw [h]
      constructor
      · simp only [List.length_cons, List.length_append, List.length_singleton,
          List.length_nil]
        omega
      · rw [filter_parseCall_cons_fsRead, filter_parseCall_append_stdout]
        omega

end MT940Bench
